import Mathlib

/-!
Verification of the LTTB (Largest-Triangle-Three-Buckets) downsampling routine
`lttb_downsample` from `src/backend/main.py`.

Shallow embedding choices:
* Python `float` arithmetic on the data values is modelled two ways:
  exact rational arithmetic (`ℚ`, instance `opsQ`) for the structural claims,
  and rationals extended with an absorbing NaN (`Option ℚ`, instance `opsN`,
  `none` = NaN) for the claims about NaN propagation and selection.  The
  bucket-boundary arithmetic (`bucket_size` and the `floor` computations) is
  modelled with exact rationals, per the spec's description of `bucket_size`
  as a real-valued ratio.
* Python sequences become `List`; `x[j]` becomes `pyGet`, which is total
  (out-of-range reads return a default) — the in-bounds claims are proved
  separately, so every read the algorithm actually performs is shown to be
  within range.
* The one arithmetic exception the routine can raise (`ZeroDivisionError`
  from `(n - 2) / (target_points - 2)` when `target_points == 2` on the
  downsampling path) is modelled by returning `Except.error`.
-/

/-- Python `range(a, b)` over integers, as a list (empty when `b ≤ a`). -/
def intRange (a b : ℤ) : List ℤ :=
  (List.range (b - a).toNat).map (fun (k : ℕ) => a + (k : ℤ))

/-- Equality of `Except` values is decidable componentwise; needed so that
concrete runs of the embedded algorithm can be checked by `decide`. -/
instance {ε α : Type} [DecidableEq ε] [DecidableEq α] :
    DecidableEq (Except ε α) := fun a b =>
  match a, b with
  | .ok u, .ok v => if h : u = v then .isTrue (by rw [h]) else .isFalse (by simp [h])
  | .error e, .error f => if h : e = f then .isTrue (by rw [h]) else .isFalse (by simp [h])
  | .ok _, .error _ => .isFalse (by simp)
  | .error _, .ok _ => .isFalse (by simp)

/-- Python sequence indexing `xs[i]`, with negative-index wraparound,
made total by a default value (all reads performed by the algorithm are
proved in-bounds separately). -/
def pyGet {V : Type} (xs : List V) (i : ℤ) (d : V) : V :=
  if i < 0 then xs.getD (xs.length - (-i).toNat) d else xs.getD i.toNat d

/-- Abstract interface for the float operations `lttb_downsample` performs on
the data values: literals `0.0`, `-1.0`, `0.5`, arithmetic, `abs`, division by
an averaging-window length, and the Python `<` comparison (a `Bool`, so that
NaN comparisons can be modelled as `false`). -/
structure FOps (V : Type) where
  zero : V
  negOne : V
  chalf : V
  add : V → V → V
  sub : V → V → V
  mul : V → V → V
  abs : V → V
  divNat : V → ℕ → V
  lt : V → V → Bool

/-- The triangle-area computation of the inner loop:
`abs((point_a_x - avg_x) * (y_data[j] - point_a_y)
     - (point_a_x - x_data[j]) * (avg_y - point_a_y)) * 0.5`. -/
def triArea {V : Type} (ops : FOps V) (pax pay avgx avgy xj yj : V) : V :=
  ops.mul
    (ops.abs
      (ops.sub (ops.mul (ops.sub pax avgx) (ops.sub yj pay))
               (ops.mul (ops.sub pax xj) (ops.sub avgy pay))))
    ops.chalf

/-- The area of the triangle formed by the previously chosen point `a`, the
candidate `j`, and the averaged apex `(avgx, avgy)`. -/
def areaOf {V : Type} (ops : FOps V) (x y : List V) (a : ℤ) (avgx avgy : V)
    (j : ℤ) : V :=
  triArea ops (pyGet x a ops.zero) (pyGet y a ops.zero) avgx avgy
    (pyGet x j ops.zero) (pyGet y j ops.zero)

/-- The running-maximum fold of the candidate loop: state `(max_area, next_a)`,
updated only under the strict comparison `area > max_area`. -/
def selFold {V : Type} (ops : FOps V) (area : ℤ → V) :
    List ℤ → V × ℤ → V × ℤ
  | [], st => st
  | j :: js, st =>
      selFold ops area js (if ops.lt st.1 (area j) then (area j, j) else st)

/-- The per-bucket candidate selection: `max_area` starts at `-1.0`, `next_a`
starts at `range_offs`, and every candidate `j` in `range(range_offs,
range_to)` updates the pair only when its area strictly exceeds the maximum. -/
def selectPoint {V : Type} (ops : FOps V) (x y : List V) (a : ℤ)
    (avgx avgy : V) (offs hi : ℤ) : ℤ :=
  (selFold ops (areaOf ops x y a avgx avgy) (intRange offs hi)
    (ops.negOne, offs)).2

/-- The averaging-window computation: sum the points of `range(s, e)`
starting from `0.0`, then divide by the window length only when that length
is positive (an empty window leaves the running average at `(0, 0)`). -/
def computeAvg {V : Type} (ops : FOps V) (x y : List V) (s e : ℤ) : V × V :=
  let ax := (intRange s e).foldl (fun acc j => ops.add acc (pyGet x j ops.zero)) ops.zero
  let ay := (intRange s e).foldl (fun acc j => ops.add acc (pyGet y j ops.zero)) ops.zero
  if 0 < e - s then (ops.divNat ax (e - s).toNat, ops.divNat ay (e - s).toNat)
  else (ax, ay)

/-- Python `int(np.floor((i + 0) * bucket_size) + 1)`. -/
def rangeOffs (b : ℚ) (i : ℕ) : ℤ := ⌊(i : ℚ) * b⌋ + 1

/-- Python `int(np.floor((i + 1) * bucket_size) + 1)`. -/
def rangeTo (b : ℚ) (i : ℕ) : ℤ := ⌊((i : ℚ) + 1) * b⌋ + 1

/-- Python `int(np.floor((i + 1) * bucket_size) + 1)` (start of the
averaging window for the next bucket). -/
def avgStart (b : ℚ) (i : ℕ) : ℤ := ⌊((i : ℚ) + 1) * b⌋ + 1

/-- Python `min(int(np.floor((i + 2) * bucket_size) + 1), data_length)`. -/
def avgEnd (b : ℚ) (i : ℕ) (n : ℕ) : ℤ := min (⌊((i : ℚ) + 2) * b⌋ + 1) (n : ℤ)

/-- The index selected at loop iteration `i` given the previously chosen
index `a`: average the next bucket's window, then pick the max-area candidate
of the current bucket. -/
def selIdxAt {V : Type} (ops : FOps V) (x y : List V) (n : ℕ) (b : ℚ)
    (i : ℕ) (a : ℤ) : ℤ :=
  let av := computeAvg ops x y (avgStart b i) (avgEnd b i n)
  selectPoint ops x y a av.1 av.2 (rangeOffs b i) (rangeTo b i)

/-- One iteration of the main loop: state `(a, sampled_x, sampled_y)`;
append the selected point's coordinates and make it the new `a`. -/
def lttbStep {V : Type} (ops : FOps V) (x y : List V) (n : ℕ) (b : ℚ)
    (st : ℤ × List V × List V) (i : ℕ) : ℤ × List V × List V :=
  let na := selIdxAt ops x y n b i st.1
  (na, st.2.1 ++ [pyGet x na ops.zero], st.2.2 ++ [pyGet y na ops.zero])

/-- Python `bucket_size = (data_length - 2) / (target_points - 2)`,
as the real-valued ratio the spec describes. -/
def bucketSize (n tp : ℕ) : ℚ := ((n : ℚ) - 2) / ((tp : ℚ) - 2)

/-- Shallow embedding of `lttb_downsample(x_data, y_data, target_points)`
from `src/backend/main.py`.  The `target_points == 2` downsampling path is
the one input on which the Python source raises (integer division by zero in
`bucket_size`); it is modelled as `Except.error`. -/
def lttb_downsample {V : Type} (ops : FOps V) (x y : List V) (tp : ℕ) :
    Except String (List V × List V) :=
  let n := x.length
  if n ≤ tp then .ok (x, y)
  else if tp = 2 then .error "ZeroDivisionError: division by zero"
  else
    let b := bucketSize n tp
    let r := (List.range (tp - 2)).foldl (lttbStep ops x y n b)
      (0, [pyGet x 0 ops.zero], [pyGet y 0 ops.zero])
    .ok (r.2.1 ++ [pyGet x (-1) ops.zero], r.2.2 ++ [pyGet y (-1) ops.zero])

/-- Exact-rational model of the float operations. -/
def opsQ : FOps ℚ where
  zero := 0
  negOne := -1
  chalf := 1 / 2
  add := fun a b => a + b
  sub := fun a b => a - b
  mul := fun a b => a * b
  abs := fun a => |a|
  divNat := fun a k => a / (k : ℚ)
  lt := fun a b => decide (a < b)

/-- Rationals extended with NaN (`none`): every arithmetic operation
propagates NaN, and every comparison involving NaN is `false`, matching
IEEE-754 comparison semantics. -/
def opsN : FOps (Option ℚ) where
  zero := some 0
  negOne := some (-1)
  chalf := some (1 / 2)
  add := Option.map₂ (fun a b => a + b)
  sub := Option.map₂ (fun a b => a - b)
  mul := Option.map₂ (fun a b => a * b)
  abs := Option.map (fun a => |a|)
  divNat := fun a k => a.map (fun q => q / (k : ℚ))
  lt := fun a b =>
    match a, b with
    | some p, some q => decide (p < q)
    | _, _ => false

/-- The chosen index `a` after `i` iterations of the main loop
(`aAfter 0 = 0`, the first source point). -/
def aAfter {V : Type} (ops : FOps V) (x y : List V) (n : ℕ) (b : ℚ) :
    ℕ → ℤ
  | 0 => 0
  | i + 1 => selIdxAt ops x y n b i (aAfter ops x y n b i)

/-- The list of interior indices chosen by the first `k` loop iterations. -/
def idxTrace {V : Type} (ops : FOps V) (x y : List V) (n : ℕ) (b : ℚ)
    (k : ℕ) : List ℤ :=
  (List.range k).map (fun i => aAfter ops x y n b (i + 1))

/-- All source indices emitted by a downsampling run (exact-rational model):
the forced first point `0`, the interior selections, and the forced last
point `n - 1`. -/
def lttbIndices (x y : List ℚ) (tp : ℕ) : List ℤ :=
  0 :: (idxTrace opsQ x y x.length (bucketSize x.length tp) (tp - 2) ++
    [(x.length : ℤ) - 1])

-- Basic facts about `intRange`.

lemma intRange_eq_nil {a b : ℤ} (h : b ≤ a) : intRange a b = [] := by
  unfold intRange
  have : (b - a).toNat = 0 := by omega
  simp [this]

lemma intRange_eq_cons {a b : ℤ} (h : a < b) :
    intRange a b = a :: intRange (a + 1) b := by
  unfold intRange
  have h1 : (b - a).toNat = (b - (a + 1)).toNat + 1 := by omega
  rw [h1, List.range_succ_eq_map]
  simp only [List.map_cons, List.map_map]
  congr 1
  · omega
  · rw [List.map_inj_left]
    intro k _
    simp only [Function.comp_apply]
    omega

lemma mem_intRange {a b j : ℤ} : j ∈ intRange a b ↔ a ≤ j ∧ j < b := by
  unfold intRange
  constructor
  · intro hj
    rcases List.mem_map.mp hj with ⟨k, hk, rfl⟩
    rw [List.mem_range] at hk
    omega
  · rintro ⟨h1, h2⟩
    refine List.mem_map.mpr ⟨(j - a).toNat, ?_, ?_⟩
    · rw [List.mem_range]; omega
    · omega

-- Facts about the selection fold.

lemma selFold_snd_mem {V : Type} (ops : FOps V) (area : ℤ → V) :
    ∀ (L : List ℤ) (st : V × ℤ),
      (selFold ops area L st).2 = st.2 ∨ (selFold ops area L st).2 ∈ L := by
  intro L
  induction L with
  | nil => intro st; left; rfl
  | cons j js ih =>
    intro st
    unfold selFold
    by_cases hc : ops.lt st.1 (area j) = true
    · rw [if_pos hc]
      rcases ih (area j, j) with h | h
      · right; rw [h]; exact List.mem_cons_self _ _
      · right; exact List.mem_cons_of_mem _ h
    · rw [if_neg hc]
      rcases ih st with h | h
      · left; exact h
      · right; exact List.mem_cons_of_mem _ h

lemma selFold_no_update {V : Type} (ops : FOps V) (area : ℤ → V) :
    ∀ (L : List ℤ) (st : V × ℤ),
      (∀ j ∈ L, ops.lt st.1 (area j) = false) → selFold ops area L st = st := by
  intro L
  induction L with
  | nil => intro st _; rfl
  | cons j js ih =>
    intro st h
    unfold selFold
    rw [if_neg (by simp [h j (List.mem_cons_self _ _)])]
    exact ih st (fun k hk => h k (List.mem_cons_of_mem _ hk))

lemma selectPoint_mem {V : Type} (ops : FOps V) (x y : List V) (a : ℤ)
    (avgx avgy : V) (offs hi : ℤ) (h : offs < hi) :
    offs ≤ selectPoint ops x y a avgx avgy offs hi ∧
      selectPoint ops x y a avgx avgy offs hi < hi := by
  unfold selectPoint
  rcases selFold_snd_mem ops (areaOf ops x y a avgx avgy)
      (intRange offs hi) (ops.negOne, offs) with h1 | h1
  · rw [h1]; exact ⟨le_refl _, h⟩
  · exact mem_intRange.mp h1

-- The main loop in explicit trace form.

lemma lttb_foldl_eq {V : Type} (ops : FOps V) (x y : List V) (n : ℕ) (b : ℚ) :
    ∀ k : ℕ,
      (List.range k).foldl (lttbStep ops x y n b)
          (0, [pyGet x 0 ops.zero], [pyGet y 0 ops.zero]) =
        (aAfter ops x y n b k,
         pyGet x 0 ops.zero ::
           (idxTrace ops x y n b k).map (fun j => pyGet x j ops.zero),
         pyGet y 0 ops.zero ::
           (idxTrace ops x y n b k).map (fun j => pyGet y j ops.zero)) := by
  intro k
  induction k with
  | zero => rfl
  | succ k ih =>
    rw [List.range_succ, List.foldl_append, ih]
    simp only [List.foldl_cons, List.foldl_nil]
    unfold lttbStep idxTrace
    rw [List.range_succ, List.map_append, List.map_append, List.map_append]
    simp only [List.map_cons, List.map_nil]
    rfl

lemma lttb_ok_form (x y : List ℚ) (tp : ℕ) (h2 : tp ≠ 2) (hn : tp < x.length) :
    lttb_downsample opsQ x y tp =
      .ok ((pyGet x 0 0 ::
              (idxTrace opsQ x y x.length (bucketSize x.length tp) (tp - 2)).map
                (fun j => pyGet x j 0)) ++ [pyGet x (-1) 0],
           (pyGet y 0 0 ::
              (idxTrace opsQ x y x.length (bucketSize x.length tp) (tp - 2)).map
                (fun j => pyGet y j 0)) ++ [pyGet y (-1) 0]) := by
  unfold lttb_downsample
  rw [if_neg (by omega), if_neg h2]
  simp only [lttb_foldl_eq, List.cons_append]
  rfl

-- Sanity checks of the embedding on the spec's concrete scenario (§8.7).

example :
    lttb_downsample opsQ [0, 1, 2, 3, 4, 5, 6, 7, 8, 9]
      [0, 1, 0, 1, 0, 1, 0, 1, 0, 1] 4 =
    .ok ([0, 1, 6, 9], [0, 1, 0, 1]) := by with_unfolding_all decide

example : lttb_downsample opsQ [] [] 100 = .ok ([], []) := by decide

example : lttb_downsample opsQ [5] [7] 100 = .ok ([5], [7]) := by decide

-- ===========================================================================
-- Claim C3: identity path for `n ≤ target_points`.
-- ===========================================================================

/-- C3: for every input with `len(x) = len(y) = n ≤ target_points` (including
`n = 0` and `n = 1`), `lttb_downsample` returns exactly the input pair,
unchanged and without error. -/
theorem claim_C3 (x y : List ℚ) (tp : ℕ) (hlen : x.length = y.length)
    (hle : x.length ≤ tp) : lttb_downsample opsQ x y tp = .ok (x, y) := by
  unfold lttb_downsample
  rw [if_pos hle]

/-- C3 witness: `downsample([5.0], [7.0], 100) == ([5.0], [7.0])`. -/
theorem claim_C3_witness :
    ([(5 : ℚ)].length = [(7 : ℚ)].length ∧ [(5 : ℚ)].length ≤ 100) ∧
      lttb_downsample opsQ [(5 : ℚ)] [(7 : ℚ)] 100 = .ok ([5], [7]) :=
  ⟨⟨rfl, by decide⟩, claim_C3 [5] [7] 100 rfl (by decide)⟩

-- ===========================================================================
-- Claim C9: behavior of the degenerate downsampling paths (code-only claim).
-- ===========================================================================

/-- C9: with equal-length inputs and `n > target_points`, the call raises iff
`target_points = 2` (the `bucket_size` division by zero); for
`target_points ∈ {0, 1}` the interior loop runs zero times and the function
silently returns exactly the two endpoints `([x[0], x[n-1]], [y[0], y[n-1]])`
— a length-2 output exceeding `target_points`, which duplicates the single
source point when `n = 1`. -/
theorem claim_C9 (x y : List ℚ) (tp : ℕ) (hlen : x.length = y.length)
    (hn : tp < x.length) :
    ((∃ e, lttb_downsample opsQ x y tp = .error e) ↔ tp = 2) ∧
      (tp < 2 → lttb_downsample opsQ x y tp =
        .ok ([pyGet x 0 0, pyGet x (-1) 0], [pyGet y 0 0, pyGet y (-1) 0])) := by
  constructor
  · unfold lttb_downsample
    rw [if_neg (by omega)]
    by_cases h2 : tp = 2
    · rw [if_pos h2]
      simp [h2]
    · rw [if_neg h2]
      simp [h2]
  · intro h2
    unfold lttb_downsample
    rw [if_neg (by omega), if_neg (by omega)]
    have h0 : tp - 2 = 0 := by omega
    rw [h0]
    rfl

/-- C9 witness: a concrete raising input (`n = 3 > target_points = 2`) and a
concrete silent-return input (`n = 3 > target_points = 1`). -/
theorem claim_C9_witness :
    (∃ e, lttb_downsample opsQ [(0 : ℚ), 1, 2] [(0 : ℚ), 1, 0] 2 = .error e) ∧
      lttb_downsample opsQ [(0 : ℚ), 1, 2] [(0 : ℚ), 1, 0] 1 =
        .ok ([pyGet [(0 : ℚ), 1, 2] 0 0, pyGet [(0 : ℚ), 1, 2] (-1) 0],
             [pyGet [(0 : ℚ), 1, 0] 0 0, pyGet [(0 : ℚ), 1, 0] (-1) 0]) :=
  ⟨((claim_C9 [0, 1, 2] [0, 1, 0] 2 rfl (by decide)).1).mpr rfl,
   (claim_C9 [0, 1, 2] [0, 1, 0] 1 rfl (by decide)).2 (by decide)⟩

-- ===========================================================================
-- Claim C2 (code bug): no InvalidArgument error exists in the code.  On the
-- spec's required failing input (`n = 100`, `target_points = 1`) the source
-- silently returns the two endpoints instead of rejecting the call.
-- ===========================================================================

/-- C2 evaluation at the spec's failing input: with `n = 100` and
`target_points = 1`, the code silently returns the 2-point result
`([x[0], x[99]], [y[0], y[99]])`; it raises no error of any kind, while the
claim requires a defined InvalidArgument error. -/
theorem claim_C2_eval :
    lttb_downsample opsQ ((List.range 100).map (fun (k : ℕ) => (k : ℚ)))
        ((List.range 100).map (fun (k : ℕ) => (k : ℚ))) 1 =
      .ok ([0, 99], [0, 99]) := by
  with_unfolding_all decide

-- ===========================================================================
-- Claim C8 (code bug): the code never checks `len(x) == len(y)`.  On the
-- identity path a misaligned pair is returned unchanged.
-- ===========================================================================

/-- C8 evaluation at a mismatched-length input: `len(x) = 2 ≠ 3 = len(y)`,
`target_points = 5`; the code returns the misaligned pair unchanged with no
error, while the claim requires an InvalidArgument rejection. -/
theorem claim_C8_eval :
    lttb_downsample opsQ [(1 : ℚ), 2] [(1 : ℚ), 2, 3] 5 =
      .ok ([1, 2], [1, 2, 3]) := by
  with_unfolding_all decide

-- ===========================================================================
-- Claim C1: output size and endpoint preservation.  As stated (for all
-- `target_points ≥ 2`) the claim is false: at `target_points = 2` the
-- division `(n - 2) / (target_points - 2)` raises ZeroDivisionError.  The
-- amended claim holds for `target_points ≥ 3`.
-- ===========================================================================

/-- C1 counterexample: at `x = [0,1,2]`, `y = [0,1,0]`, `target_points = 2`
(so `n = 3 > 2 = target_points ≥ 2`), the call raises ZeroDivisionError
instead of returning two sequences of length 2. -/
theorem claim_C1_cex :
    lttb_downsample opsQ [(0 : ℚ), 1, 2] [(0 : ℚ), 1, 0] 2 =
      .error "ZeroDivisionError: division by zero" := by
  decide

-- ===========================================================================
-- Claim C4: an empty clipped averaging window leaves the triangle apex
-- average at exactly (0, 0).
-- ===========================================================================

/-- C4: whenever the clipped averaging window
`[floor((i+1)*bucket_size)+1, min(floor((i+2)*bucket_size)+1, n))` computed
by a loop iteration is empty, the apex average that iteration uses is exactly
`(0, 0)`: the sum loop runs zero times, the guarded division is skipped, the
window is not widened, no previous average is reused, and no error is
raised. -/
theorem claim_C4 (x y : List ℚ) (n : ℕ) (b : ℚ) (i : ℕ)
    (h : avgEnd b i n ≤ avgStart b i) :
    computeAvg opsQ x y (avgStart b i) (avgEnd b i n) = (0, 0) := by
  unfold computeAvg
  rw [intRange_eq_nil h, if_neg (by omega)]
  rfl

/-- C4 witness: with `bucket_size = 10`, `n = 5`, `i = 0` the clipped window
is `[11, 5)`, which is empty, and the computed average is `(0, 0)`. -/
theorem claim_C4_witness :
    avgEnd 10 0 5 ≤ avgStart 10 0 ∧
      computeAvg opsQ [(1 : ℚ), 2, 3, 4, 5] [(1 : ℚ), 2, 3, 4, 5]
        (avgStart 10 0) (avgEnd 10 0 5) = (0, 0) :=
  ⟨by with_unfolding_all decide,
   claim_C4 [1, 2, 3, 4, 5] [1, 2, 3, 4, 5] 5 10 0 (by with_unfolding_all decide)⟩

-- Bounds on the bucket boundaries (exact rational arithmetic).

lemma bucketSize_gt_one {n tp : ℕ} (h3 : 3 ≤ tp) (hn : tp < n) :
    1 < bucketSize n tp := by
  unfold bucketSize
  have htp : (3 : ℚ) ≤ (tp : ℚ) := by exact_mod_cast h3
  have hn2 : (tp : ℚ) < (n : ℚ) := by exact_mod_cast hn
  rw [one_lt_div (by linarith)]
  linarith

lemma rangeOffs_pos {b : ℚ} (hb : 1 < b) (i : ℕ) : 1 ≤ rangeOffs b i := by
  unfold rangeOffs
  have h0 : (0 : ℚ) ≤ (i : ℚ) * b :=
    mul_nonneg (Nat.cast_nonneg i) (by linarith)
  have := Int.floor_nonneg.mpr h0
  omega

lemma rangeOffs_lt_rangeTo {b : ℚ} (hb : 1 < b) (i : ℕ) :
    rangeOffs b i < rangeTo b i := by
  unfold rangeOffs rangeTo
  have h1 : (i : ℚ) * b + 1 ≤ ((i : ℚ) + 1) * b := by nlinarith
  have h2 : ⌊(i : ℚ) * b + 1⌋ ≤ ⌊((i : ℚ) + 1) * b⌋ := Int.floor_le_floor h1
  rw [Int.floor_add_one] at h2
  omega

lemma rangeTo_le {n tp : ℕ} (h3 : 3 ≤ tp) (hn : tp < n) {i : ℕ}
    (hi : i + 1 ≤ tp - 2) : rangeTo (bucketSize n tp) i ≤ (n : ℤ) - 1 := by
  unfold rangeTo bucketSize
  have htp : (0 : ℚ) < (tp : ℚ) - 2 := by
    have h4 : (3 : ℚ) ≤ (tp : ℚ) := by exact_mod_cast h3
    linarith
  have hn2 : (0 : ℚ) ≤ (n : ℚ) - 2 := by
    have h4 : ((tp : ℚ)) < (n : ℚ) := by exact_mod_cast hn
    linarith
  have hcast : (i : ℚ) + 1 ≤ (tp : ℚ) - 2 := by
    have h5 : ((i + 1 : ℕ) : ℚ) ≤ ((tp - 2 : ℕ) : ℚ) := by exact_mod_cast hi
    have h6 : ((tp - 2 : ℕ) : ℚ) = (tp : ℚ) - 2 := by
      have h7 : 2 ≤ tp := by omega
      push_cast [h7]
      ring
    rw [h6] at h5
    push_cast at h5
    linarith
  have hmul : ((i : ℚ) + 1) * (((n : ℚ) - 2) / ((tp : ℚ) - 2)) ≤
      ((tp : ℚ) - 2) * (((n : ℚ) - 2) / ((tp : ℚ) - 2)) :=
    mul_le_mul_of_nonneg_right hcast (div_nonneg hn2 (le_of_lt htp))
  have hcancel : ((tp : ℚ) - 2) * (((n : ℚ) - 2) / ((tp : ℚ) - 2)) = (n : ℚ) - 2 := by
    rw [mul_comm]
    exact div_mul_cancel₀ _ (ne_of_gt htp)
  have hfl : ⌊((i : ℚ) + 1) * (((n : ℚ) - 2) / ((tp : ℚ) - 2))⌋ ≤ ⌊(n : ℚ) - 2⌋ :=
    Int.floor_le_floor (le_trans hmul (le_of_eq hcancel))
  have hfl2 : ⌊(n : ℚ) - 2⌋ = (n : ℤ) - 2 := by
    have : ((n : ℚ) - 2) = (((n : ℤ) - 2 : ℤ) : ℚ) := by push_cast; ring
    rw [this, Int.floor_intCast]
  omega

lemma avgStart_eq_rangeTo (b : ℚ) (i : ℕ) : avgStart b i = rangeTo b i := rfl

lemma rangeOffs_succ (b : ℚ) (i : ℕ) : rangeOffs b (i + 1) = rangeTo b i := by
  unfold rangeOffs rangeTo
  push_cast
  ring_nf

lemma aAfter_succ_bounds (x y : List ℚ) {n tp : ℕ} (h3 : 3 ≤ tp)
    (hn : tp < n) (i : ℕ) :
    rangeOffs (bucketSize n tp) i ≤ aAfter opsQ x y n (bucketSize n tp) (i + 1) ∧
      aAfter opsQ x y n (bucketSize n tp) (i + 1) < rangeTo (bucketSize n tp) i := by
  have hb := bucketSize_gt_one h3 hn
  show rangeOffs _ i ≤ selIdxAt opsQ x y n _ i (aAfter opsQ x y n _ i) ∧ _
  unfold selIdxAt
  exact selectPoint_mem opsQ x y _ _ _ _ _ (rangeOffs_lt_rangeTo hb i)

-- ===========================================================================
-- Claim C10: totality and in-bounds accesses of the downsampling path.
-- ===========================================================================

/-- C10: for `n > target_points ≥ 3` every bucket is non-empty
(`bucket_size > 1`), every bucket boundary lies in `[1, n-1]`, every averaging
window lies within `[1, n)`, every chosen interior index lies in `[1, n-2]`,
the initial chosen index `0` and the forced endpoints are in `[0, n-1]`, and
the function returns a result without raising. -/
theorem claim_C10 (x y : List ℚ) (tp : ℕ) (hlen : x.length = y.length)
    (h3 : 3 ≤ tp) (hn : tp < x.length) :
    1 < bucketSize x.length tp ∧
      (∀ i, i < tp - 2 →
        1 ≤ rangeOffs (bucketSize x.length tp) i ∧
        rangeOffs (bucketSize x.length tp) i < rangeTo (bucketSize x.length tp) i ∧
        rangeTo (bucketSize x.length tp) i ≤ (x.length : ℤ) - 1 ∧
        1 ≤ avgStart (bucketSize x.length tp) i ∧
        avgEnd (bucketSize x.length tp) i x.length ≤ (x.length : ℤ)) ∧
      (∀ i, i ≤ tp - 2 →
        0 ≤ aAfter opsQ x y x.length (bucketSize x.length tp) i ∧
        aAfter opsQ x y x.length (bucketSize x.length tp) i ≤ (x.length : ℤ) - 2) ∧
      (∀ i, i < tp - 2 →
        1 ≤ aAfter opsQ x y x.length (bucketSize x.length tp) (i + 1)) ∧
      (∃ p, lttb_downsample opsQ x y tp = .ok p) := by
  have hb := bucketSize_gt_one h3 hn
  refine ⟨hb, ?_, ?_, ?_, ?_⟩
  · intro i hi
    have h1 := rangeOffs_pos hb i
    have h2 := rangeOffs_lt_rangeTo hb i
    have h3i := rangeTo_le h3 hn (i := i) (by omega)
    refine ⟨h1, h2, h3i, ?_, min_le_right _ _⟩
    rw [avgStart_eq_rangeTo]
    omega
  · intro i hi
    cases i with
    | zero =>
      constructor
      · exact le_refl 0
      · show (0 : ℤ) ≤ (x.length : ℤ) - 2
        omega
    | succ j =>
      have hab := aAfter_succ_bounds x y h3 hn j
      have h1 := rangeOffs_pos hb j
      have h2 := rangeTo_le h3 hn (i := j) (by omega)
      exact ⟨by omega, by omega⟩
  · intro i hi
    have hab := aAfter_succ_bounds x y h3 hn i
    have h1 := rangeOffs_pos hb i
    omega
  · exact ⟨_, lttb_ok_form x y tp (by omega) hn⟩

/-- C10 witness: a concrete run with `n = 5 > target_points = 3`. -/
theorem claim_C10_witness :
    1 < bucketSize 5 3 ∧
      (∃ p, lttb_downsample opsQ [(0 : ℚ), 1, 2, 3, 4] [(0 : ℚ), 1, 0, 1, 0] 3 =
        .ok p) :=
  ⟨(claim_C10 [0, 1, 2, 3, 4] [0, 1, 0, 1, 0] 3 rfl (by decide) (by decide)).1,
   (claim_C10 [0, 1, 2, 3, 4] [0, 1, 0, 1, 0] 3 rfl (by decide) (by decide)).2.2.2.2⟩

/-- C1 (amended to `target_points ≥ 3`): for equal-length inputs with
`n > target_points ≥ 3`, `lttb_downsample` returns two sequences of length
exactly `target_points` whose first elements are `x[0]` and `y[0]` and whose
last elements are `x[n-1]` and `y[n-1]`, verbatim.  (At `target_points = 2`
the code instead raises ZeroDivisionError — see the counterexample.) -/
theorem claim_C1 (x y : List ℚ) (tp : ℕ) (hlen : x.length = y.length)
    (h3 : 3 ≤ tp) (hn : tp < x.length) :
    ∃ sx sy, lttb_downsample opsQ x y tp = .ok (sx, sy) ∧
      sx.length = tp ∧ sy.length = tp ∧
      sx.head? = some (x.getD 0 0) ∧ sy.head? = some (y.getD 0 0) ∧
      sx.getLast? = some (x.getD (x.length - 1) 0) ∧
      sy.getLast? = some (y.getD (y.length - 1) 0) := by
  refine ⟨_, _, lttb_ok_form x y tp (by omega) hn, ?_, ?_, ?_, ?_, ?_, ?_⟩
  · simp only [List.length_append, List.length_cons, List.length_map,
      idxTrace, List.length_range, List.length_nil]
    omega
  · simp only [List.length_append, List.length_cons, List.length_map,
      idxTrace, List.length_range, List.length_nil]
    omega
  · rw [List.cons_append, List.head?_cons]
    rfl
  · rw [List.cons_append, List.head?_cons]
    rfl
  · rw [List.getLast?_concat]
    rfl
  · rw [List.getLast?_concat]
    rfl

/-- C1 witness: the spec's concrete scenario (`n = 10`, `target_points = 4`). -/
theorem claim_C1_witness :
    (3 ≤ 4 ∧ 4 < 10) ∧
      (∃ sx sy,
        lttb_downsample opsQ [(0 : ℚ), 1, 2, 3, 4, 5, 6, 7, 8, 9]
            [(0 : ℚ), 1, 0, 1, 0, 1, 0, 1, 0, 1] 4 = .ok (sx, sy) ∧
        sx.length = 4 ∧ sy.length = 4 ∧
        sx.head? = some 0 ∧ sy.head? = some 0 ∧
        sx.getLast? = some 9 ∧ sy.getLast? = some 1) :=
  ⟨⟨by omega, by omega⟩,
   claim_C1 [0, 1, 2, 3, 4, 5, 6, 7, 8, 9] [0, 1, 0, 1, 0, 1, 0, 1, 0, 1] 4
     rfl (by omega) (by decide)⟩

-- Projection lemmas for the exact-rational operation set.

lemma opsQ_zero : opsQ.zero = 0 := rfl

lemma opsQ_negOne : opsQ.negOne = -1 := rfl

lemma opsQ_chalf : opsQ.chalf = 1 / 2 := rfl

lemma opsQ_mul (a b : ℚ) : opsQ.mul a b = a * b := rfl

lemma opsQ_sub (a b : ℚ) : opsQ.sub a b = a - b := rfl

lemma opsQ_abs (a : ℚ) : opsQ.abs a = |a| := rfl

lemma opsQ_lt (a b : ℚ) : opsQ.lt a b = decide (a < b) := rfl

lemma areaOfQ_nonneg (x y : List ℚ) (a : ℤ) (avgx avgy : ℚ) (j : ℤ) :
    0 ≤ areaOf opsQ x y a avgx avgy j := by
  unfold areaOf triArea
  rw [opsQ_mul, opsQ_abs, opsQ_chalf]
  positivity

lemma selFoldQ_argmax (hi : ℤ) (area : ℤ → ℚ) :
    ∀ (d : ℕ) (lo : ℤ) (m0 : ℚ) (n0 : ℤ), (hi - lo).toNat = d → lo < hi →
      (∃ j, lo ≤ j ∧ j < hi ∧ m0 < area j) →
      lo ≤ (selFold opsQ area (intRange lo hi) (m0, n0)).2 ∧
      (selFold opsQ area (intRange lo hi) (m0, n0)).2 < hi ∧
      (selFold opsQ area (intRange lo hi) (m0, n0)).1 =
        area (selFold opsQ area (intRange lo hi) (m0, n0)).2 ∧
      m0 < (selFold opsQ area (intRange lo hi) (m0, n0)).1 ∧
      (∀ k, lo ≤ k → k < hi →
        area k ≤ (selFold opsQ area (intRange lo hi) (m0, n0)).1) ∧
      (∀ k, lo ≤ k → k < (selFold opsQ area (intRange lo hi) (m0, n0)).2 →
        area k < (selFold opsQ area (intRange lo hi) (m0, n0)).1) := by
  intro d
  induction d with
  | zero =>
    intro lo m0 n0 hd hlo _
    omega
  | succ d ih =>
    intro lo m0 n0 hd hlo hex
    rw [intRange_eq_cons hlo]
    simp only [selFold]
    by_cases hc : m0 < area lo
    · rw [if_pos (by rw [opsQ_lt]; exact decide_eq_true hc)]
      by_cases hex2 : ∃ j, lo + 1 ≤ j ∧ j < hi ∧ area lo < area j
      · have hlo2 : lo + 1 < hi := by
          obtain ⟨j2, hj21, hj22, _⟩ := hex2
          omega
        have H := ih (lo + 1) (area lo) lo (by omega) hlo2 hex2
        refine ⟨by omega, H.2.1, H.2.2.1, lt_trans hc H.2.2.2.1, ?_, ?_⟩
        · intro k hk1 hk2
          by_cases hkl : k = lo
          · subst hkl
            exact le_of_lt H.2.2.2.1
          · exact H.2.2.2.2.1 k (by omega) hk2
        · intro k hk1 hk2
          by_cases hkl : k = lo
          · subst hkl
            exact H.2.2.2.1
          · exact H.2.2.2.2.2 k (by omega) hk2
      · push_neg at hex2
        rw [selFold_no_update opsQ area _ _ ?_]
        · refine ⟨le_refl _, hlo, rfl, hc, ?_, ?_⟩
          · intro k hk1 hk2
            by_cases hkl : k = lo
            · subst hkl; exact le_refl _
            · exact hex2 k (by omega) hk2
          · intro k hk1 hk2
            omega
        · intro j hj
          rcases mem_intRange.mp hj with ⟨h1, h2⟩
          rw [opsQ_lt]
          exact decide_eq_false (not_lt.mpr (hex2 j h1 h2))
    · rw [if_neg (by rw [opsQ_lt]; simp [hc])]
      obtain ⟨j, hj1, hj2, hj3⟩ := hex
      have hjlo : j ≠ lo := by
        intro hjl
        subst hjl
        exact hc hj3
      have hex2 : ∃ j2, lo + 1 ≤ j2 ∧ j2 < hi ∧ m0 < area j2 :=
        ⟨j, by omega, hj2, hj3⟩
      have hlo2 : lo + 1 < hi := by omega
      have H := ih (lo + 1) m0 n0 (by omega) hlo2 hex2
      have halo : area lo ≤ m0 := not_lt.mp hc
      refine ⟨by omega, H.2.1, H.2.2.1, H.2.2.2.1, ?_, ?_⟩
      · intro k hk1 hk2
        by_cases hkl : k = lo
        · subst hkl
          exact le_of_lt (lt_of_le_of_lt halo H.2.2.2.1)
        · exact H.2.2.2.2.1 k (by omega) hk2
      · intro k hk1 hk2
        by_cases hkl : k = lo
        · subst hkl
          exact lt_of_le_of_lt halo H.2.2.2.1
        · exact H.2.2.2.2.2 k (by omega) hk2

-- ===========================================================================
-- Claim C6: first-max tie-breaking of the bucket selection.
-- ===========================================================================

/-- C6: within a bucket `[offs, hi)` the emitted index is the first candidate
attaining the maximum triangle area: the selected index is in range, every
candidate's area is at most the selected one's, and every candidate strictly
before the selected index has strictly smaller area (the running maximum is
updated only under strict `>`). -/
theorem claim_C6 (x y : List ℚ) (a offs hi : ℤ) (avgx avgy : ℚ)
    (h : offs < hi) :
    offs ≤ selectPoint opsQ x y a avgx avgy offs hi ∧
      selectPoint opsQ x y a avgx avgy offs hi < hi ∧
      (∀ k, offs ≤ k → k < hi →
        areaOf opsQ x y a avgx avgy k ≤
          areaOf opsQ x y a avgx avgy (selectPoint opsQ x y a avgx avgy offs hi)) ∧
      (∀ k, offs ≤ k → k < selectPoint opsQ x y a avgx avgy offs hi →
        areaOf opsQ x y a avgx avgy k <
          areaOf opsQ x y a avgx avgy (selectPoint opsQ x y a avgx avgy offs hi)) := by
  have hex : ∃ j, offs ≤ j ∧ j < hi ∧ opsQ.negOne < areaOf opsQ x y a avgx avgy j := by
    refine ⟨offs, le_refl _, h, ?_⟩
    rw [opsQ_negOne]
    exact lt_of_lt_of_le (by norm_num) (areaOfQ_nonneg x y a avgx avgy offs)
  have H := selFoldQ_argmax hi (areaOf opsQ x y a avgx avgy) (hi - offs).toNat
    offs opsQ.negOne offs rfl h hex
  unfold selectPoint
  refine ⟨H.1, H.2.1, ?_, ?_⟩
  · intro k hk1 hk2
    have := H.2.2.2.2.1 k hk1 hk2
    rw [H.2.2.1] at this
    exact this
  · intro k hk1 hk2
    have := H.2.2.2.2.2 k hk1 hk2
    rw [H.2.2.1] at this
    exact this

/-- C6 witness: a concrete bucket `[1, 3)` with apex `(2, 0)` and previous
point index `0` over `x = [0,1,2,3]`, `y = [0,1,0,1]`. -/
theorem claim_C6_witness :
    (1 : ℤ) < 3 ∧
      1 ≤ selectPoint opsQ [(0 : ℚ), 1, 2, 3] [(0 : ℚ), 1, 0, 1] 0 2 0 1 3 ∧
      selectPoint opsQ [(0 : ℚ), 1, 2, 3] [(0 : ℚ), 1, 0, 1] 0 2 0 1 3 < 3 ∧
      areaOf opsQ [(0 : ℚ), 1, 2, 3] [(0 : ℚ), 1, 0, 1] 0 2 0 1 ≤
        areaOf opsQ [(0 : ℚ), 1, 2, 3] [(0 : ℚ), 1, 0, 1] 0 2 0
          (selectPoint opsQ [(0 : ℚ), 1, 2, 3] [(0 : ℚ), 1, 0, 1] 0 2 0 1 3) :=
  ⟨by omega,
   (claim_C6 [0, 1, 2, 3] [0, 1, 0, 1] 0 1 3 2 0 (by omega)).1,
   (claim_C6 [0, 1, 2, 3] [0, 1, 0, 1] 0 1 3 2 0 (by omega)).2.1,
   (claim_C6 [0, 1, 2, 3] [0, 1, 0, 1] 0 1 3 2 0 (by omega)).2.2.1 1
     (by omega) (by omega)⟩

-- Projection and comparison lemmas for the NaN-extended operation set.

lemma opsN_negOne : opsN.negOne = some (-1) := rfl

lemma opsN_lt_none (m : Option ℚ) : opsN.lt m none = false := by
  cases m <;> rfl

lemma opsN_lt_some (p q : ℚ) : opsN.lt (some p) (some q) = decide (p < q) := rfl

lemma mulAbsHalfN {D : Option ℚ} {q : ℚ}
    (h : opsN.mul (opsN.abs D) opsN.chalf = some q) : 0 ≤ q := by
  cases D with
  | none =>
    rw [show opsN.mul (opsN.abs (none : Option ℚ)) opsN.chalf = none from rfl] at h
    exact absurd h (by simp)
  | some d =>
    have h2 : some (|d| * (1 / 2 : ℚ)) = some q := by rw [← h]; rfl
    have h3 : |d| * (1 / 2 : ℚ) = q := Option.some.inj h2
    rw [← h3]
    positivity

lemma areaOfN_some {x y : List (Option ℚ)} {a : ℤ} {avgx avgy : Option ℚ}
    {j : ℤ} {q : ℚ} (h : areaOf opsN x y a avgx avgy j = some q) : 0 ≤ q := by
  unfold areaOf triArea at h
  exact mulAbsHalfN h

lemma selFoldN_sel (hi : ℤ) (area : ℤ → Option ℚ) :
    ∀ (d : ℕ) (lo : ℤ) (q0 : ℚ) (n0 : ℤ), (hi - lo).toNat = d →
      (∃ j, lo ≤ j ∧ j < hi ∧ opsN.lt (some q0) (area j) = true) →
      lo ≤ (selFold opsN area (intRange lo hi) (some q0, n0)).2 ∧
      (selFold opsN area (intRange lo hi) (some q0, n0)).2 < hi ∧
      area (selFold opsN area (intRange lo hi) (some q0, n0)).2 ≠ none := by
  intro d
  induction d with
  | zero =>
    intro lo q0 n0 hd hex
    obtain ⟨j, hj1, hj2, _⟩ := hex
    omega
  | succ d ih =>
    intro lo q0 n0 hd hex
    have hlo : lo < hi := by
      obtain ⟨j, hj1, hj2, _⟩ := hex
      omega
    rw [intRange_eq_cons hlo]
    simp only [selFold]
    cases hal : area lo with
    | none =>
      rw [if_neg (by rw [opsN_lt_none]; simp)]
      obtain ⟨j, hj1, hj2, hj3⟩ := hex
      have hjne : j ≠ lo := by
        intro he
        subst he
        rw [hal, opsN_lt_none] at hj3
        exact absurd hj3 (by simp)
      have H := ih (lo + 1) q0 n0 (by omega) ⟨j, by omega, hj2, hj3⟩
      exact ⟨by omega, H.2.1, H.2.2⟩
    | some r0 =>
      by_cases hc : q0 < r0
      · rw [if_pos (by rw [opsN_lt_some]; exact decide_eq_true hc)]
        by_cases hex2 : ∃ j, lo + 1 ≤ j ∧ j < hi ∧ opsN.lt (some r0) (area j) = true
        · have H := ih (lo + 1) r0 lo (by omega) hex2
          exact ⟨by omega, H.2.1, H.2.2⟩
        · push_neg at hex2
          rw [selFold_no_update opsN area _ _ ?_]
          · refine ⟨le_refl _, hlo, ?_⟩
            show area lo ≠ none
            rw [hal]
            simp
          · intro j hj
            rcases mem_intRange.mp hj with ⟨h1, h2⟩
            cases hb : opsN.lt (some r0) (area j) with
            | false => rfl
            | true => exact absurd hb (hex2 j h1 h2)
      · rw [if_neg (by rw [opsN_lt_some]; simp [hc])]
        obtain ⟨j, hj1, hj2, hj3⟩ := hex
        have hjne : j ≠ lo := by
          intro he
          subst he
          rw [hal, opsN_lt_some] at hj3
          exact hc (of_decide_eq_true hj3)
        have H := ih (lo + 1) q0 n0 (by omega) ⟨j, by omega, hj2, hj3⟩
        exact ⟨by omega, H.2.1, H.2.2⟩

-- ===========================================================================
-- Claim C7: NaN tolerance and NaN-aware selection.
-- ===========================================================================

/-- C7: in the NaN model (`none` = NaN, comparisons with NaN are `false`):
(1) non-finite data values never cause a raise — with equal-length inputs the
call errors exactly when `n > target_points` and `target_points = 2`,
independent of the data values; (2) in a bucket where every candidate's area
is NaN no update ever fires, so the selected index is the bucket's first
candidate `range_offs` (the initialization of `next_a`); (3) in a bucket
containing at least one candidate with non-NaN area, the selected candidate's
area is not NaN (a NaN-area candidate is never selected over a valid one,
because the running maximum starts at `-1.0` and NaN comparisons are false). -/
theorem claim_C7 :
    (∀ (x y : List (Option ℚ)) (tp : ℕ), x.length = y.length →
      ((∃ e, lttb_downsample opsN x y tp = .error e) ↔
        tp < x.length ∧ tp = 2)) ∧
      (∀ (x y : List (Option ℚ)) (a offs hi : ℤ) (avgx avgy : Option ℚ),
        offs < hi →
        (∀ k, offs ≤ k → k < hi → areaOf opsN x y a avgx avgy k = none) →
        selectPoint opsN x y a avgx avgy offs hi = offs) ∧
      (∀ (x y : List (Option ℚ)) (a offs hi : ℤ) (avgx avgy : Option ℚ),
        offs < hi →
        (∃ k, offs ≤ k ∧ k < hi ∧ areaOf opsN x y a avgx avgy k ≠ none) →
        areaOf opsN x y a avgx avgy (selectPoint opsN x y a avgx avgy offs hi) ≠
          none) := by
  refine ⟨?_, ?_, ?_⟩
  · intro x y tp hlen
    unfold lttb_downsample
    by_cases hle : x.length ≤ tp
    · rw [if_pos hle]
      simp
      omega
    · rw [if_neg hle]
      by_cases h2 : tp = 2
      · rw [if_pos h2]
        simp [h2]
        omega
      · rw [if_neg h2]
        simp [h2]
  · intro x y a offs hi avgx avgy hlt hall
    unfold selectPoint
    rw [selFold_no_update opsN _ _ _ ?_]
    · intro j hj
      rcases mem_intRange.mp hj with ⟨h1, h2⟩
      rw [hall j h1 h2]
      exact opsN_lt_none _
  · intro x y a offs hi avgx avgy hlt hex
    obtain ⟨k, hk1, hk2, hk3⟩ := hex
    cases hq : areaOf opsN x y a avgx avgy k with
    | none => exact absurd hq hk3
    | some q =>
      have hq0 : 0 ≤ q := areaOfN_some hq
      have hltk : opsN.lt (some (-1)) (areaOf opsN x y a avgx avgy k) = true := by
        rw [hq, opsN_lt_some]
        exact decide_eq_true (by linarith)
      have H := selFoldN_sel hi (areaOf opsN x y a avgx avgy)
        (hi - offs).toNat offs (-1) offs rfl ⟨k, hk1, hk2, hltk⟩
      exact H.2.2

/-- C7 witness: an all-NaN bucket (`x[0]` is NaN, so every area is NaN)
selects its first candidate, and a bucket with a valid candidate selects a
non-NaN area. -/
theorem claim_C7_witness :
    selectPoint opsN [none, some 1, some 2] [none, some 1, some 2] 0
        (some 0) (some 0) 1 3 = 1 ∧
      areaOf opsN [some 0, some 1] [some 0, some 1] 0 (some 0) (some 0)
          (selectPoint opsN [some 0, some 1] [some 0, some 1] 0
            (some 0) (some 0) 1 2) ≠ none :=
  ⟨claim_C7.2.1 [none, some 1, some 2] [none, some 1, some 2] 0 1 3
      (some 0) (some 0) (by omega)
      (fun k h1 h2 => by interval_cases k <;> rfl),
   claim_C7.2.2 [some 0, some 1] [some 0, some 1] 0 1 2 (some 0) (some 0)
      (by omega) ⟨1, by omega, by omega, by with_unfolding_all decide⟩⟩

-- Helper lemmas for claim C5.

lemma pyGet_neg_one {V : Type} (x : List V) (d : V) (h : 1 ≤ x.length) :
    pyGet x (-1) d = pyGet x ((x.length : ℤ) - 1) d := by
  unfold pyGet
  rw [if_pos (by omega : (-1 : ℤ) < 0), if_neg (by omega : ¬((x.length : ℤ) - 1 < 0))]
  congr 1
  omega

lemma idxTrace_head {V : Type} (ops : FOps V) (x y : List V) (n : ℕ) (b : ℚ)
    {k : ℕ} (hk : 1 ≤ k) :
    (idxTrace ops x y n b k).head? = some (aAfter ops x y n b 1) := by
  obtain ⟨m, rfl⟩ : ∃ m, k = m + 1 := ⟨k - 1, by omega⟩
  unfold idxTrace
  rw [List.head?_map, List.range_succ_eq_map]
  rfl

lemma idxTrace_getLast {V : Type} (ops : FOps V) (x y : List V) (n : ℕ) (b : ℚ)
    {k : ℕ} (hk : 1 ≤ k) :
    (idxTrace ops x y n b k).getLast? = some (aAfter ops x y n b k) := by
  obtain ⟨m, rfl⟩ : ∃ m, k = m + 1 := ⟨k - 1, by omega⟩
  unfold idxTrace
  rw [List.getLast?_map, List.range_succ, List.getLast?_concat]
  rfl

lemma lttbIndices_chain (x y : List ℚ) {tp : ℕ} (h3 : 3 ≤ tp)
    (hn : tp < x.length) :
    List.Chain' (· < ·) (lttbIndices x y tp) := by
  have hb := bucketSize_gt_one h3 hn
  have hk1 : 1 ≤ tp - 2 := by omega
  unfold lttbIndices
  rw [List.chain'_cons']
  constructor
  · intro z hz
    rw [List.head?_append, idxTrace_head opsQ x y x.length _ hk1] at hz
    simp only [Option.mem_def, Option.or, Option.some.injEq] at hz
    subst hz
    have h1 := (aAfter_succ_bounds x y h3 hn 0).1
    norm_num at h1
    have h2 := rangeOffs_pos hb 0
    omega
  · rw [List.chain'_append]
    refine ⟨?_, List.chain'_singleton _, ?_⟩
    · unfold idxTrace
      apply (List.chain'_map _).mpr
      obtain ⟨m, hm⟩ : ∃ m, tp - 2 = m + 1 := ⟨tp - 3, by omega⟩
      rw [hm]
      apply (List.chain'_range_succ
        (fun i j => aAfter opsQ x y x.length (bucketSize x.length tp) (i + 1) <
          aAfter opsQ x y x.length (bucketSize x.length tp) (j + 1)) m).mpr ?_
      · intro i hi
        simp only [Nat.succ_eq_add_one]
        have h1 := (aAfter_succ_bounds x y h3 hn i).2
        have h2 := (aAfter_succ_bounds x y h3 hn (i + 1)).1
        rw [rangeOffs_succ] at h2
        omega
    · intro z hz w hw
      rw [idxTrace_getLast opsQ x y x.length _ hk1] at hz
      simp only [Option.mem_def, Option.some.injEq, List.head?_cons] at hz hw
      subst hz
      subst hw
      obtain ⟨m, hm⟩ : ∃ m, tp - 2 = m + 1 := ⟨tp - 3, by omega⟩
      rw [hm]
      have h1 := (aAfter_succ_bounds x y h3 hn m).2
      have h2 := rangeTo_le h3 hn (i := m) (by omega)
      omega

lemma map_pyGet_sublist (l : List ℚ) (is : List ℤ)
    (hpw : is.Pairwise (· < ·))
    (hb : ∀ j ∈ is, 0 ≤ j ∧ j.toNat < l.length) :
    (is.map (fun j => pyGet l j 0)).Sublist l := by
  have hpw2 : (is.pmap (fun j h => (⟨j.toNat, h.2⟩ : Fin l.length)) hb).Pairwise
      (· < ·) := by
    rw [List.pairwise_pmap]
    refine hpw.imp ?_
    intro a b hab h1 h2
    exact Fin.mk_lt_mk.mpr (by omega)
  have hsub := List.map_getElem_sublist hpw2
  rw [List.map_pmap] at hsub
  have hcong : is.pmap
      (fun j h => (l[(⟨j.toNat, h.2⟩ : Fin l.length)] : ℚ)) hb =
      is.map (fun j => pyGet l j 0) := by
    rw [← List.pmap_eq_map (fun j : ℤ => 0 ≤ j ∧ j.toNat < l.length)
      (fun j => pyGet l j 0) is hb]
    apply List.pmap_congr_left
    intro a ha h1 h2
    rw [Fin.getElem_fin]
    unfold pyGet
    rw [if_neg (by omega : ¬(a < 0))]
    rw [List.getD_eq_getElem?_getD, List.getElem?_eq_getElem h1.2]
    rfl
  rw [hcong] at hsub
  exact hsub

-- ===========================================================================
-- Claim C5: monotone index selection and subsequence property.
-- ===========================================================================

/-- C5: for `n > target_points ≥ 3` the chosen source index `a` is strictly
increasing across the loop iterations (hence non-decreasing), the output is
exactly the source values read at the emitted index sequence
`0 :: interior ++ [n-1]`, and the returned `x'` is a subsequence of `x` in
original input order. -/
theorem claim_C5 (x y : List ℚ) (tp : ℕ) (hlen : x.length = y.length)
    (h3 : 3 ≤ tp) (hn : tp < x.length) :
    List.Chain' (· < ·) (lttbIndices x y tp) ∧
      lttb_downsample opsQ x y tp =
        .ok ((lttbIndices x y tp).map (fun j => pyGet x j 0),
             (lttbIndices x y tp).map (fun j => pyGet y j 0)) ∧
      ((lttbIndices x y tp).map (fun j => pyGet x j 0)).Sublist x := by
  have hb := bucketSize_gt_one h3 hn
  have hchain := lttbIndices_chain x y h3 hn
  refine ⟨hchain, ?_, ?_⟩
  · rw [lttb_ok_form x y tp (by omega) hn]
    unfold lttbIndices
    simp only [List.map_cons, List.map_append, List.map_nil, List.cons_append]
    rw [pyGet_neg_one x 0 (by omega), pyGet_neg_one y 0 (by omega), ← hlen]
  · apply map_pyGet_sublist
    · exact List.chain'_iff_pairwise.mp hchain
    · intro j hj
      unfold lttbIndices at hj
      rcases List.mem_cons.mp hj with h0 | hj2
      · subst h0
        constructor
        · exact le_refl 0
        · omega
      · rcases List.mem_append.mp hj2 with htr | hlast
        · unfold idxTrace at htr
          rcases List.mem_map.mp htr with ⟨i, hi, rfl⟩
          rw [List.mem_range] at hi
          have hab := aAfter_succ_bounds x y h3 hn i
          have h1 := rangeOffs_pos hb i
          have h2 := rangeTo_le h3 hn (i := i) (by omega)
          exact ⟨by omega, by omega⟩
        · rw [List.mem_singleton] at hlast
          subst hlast
          exact ⟨by omega, by omega⟩

/-- C5 witness: the spec's concrete scenario; the emitted index sequence is
strictly increasing and the output x-values form a sublist of the input. -/
theorem claim_C5_witness :
    List.Chain' (· < ·)
        (lttbIndices [(0 : ℚ), 1, 2, 3, 4, 5, 6, 7, 8, 9]
          [(0 : ℚ), 1, 0, 1, 0, 1, 0, 1, 0, 1] 4) ∧
      ((lttbIndices [(0 : ℚ), 1, 2, 3, 4, 5, 6, 7, 8, 9]
          [(0 : ℚ), 1, 0, 1, 0, 1, 0, 1, 0, 1] 4).map
        (fun j => pyGet [(0 : ℚ), 1, 2, 3, 4, 5, 6, 7, 8, 9] j 0)).Sublist
        [(0 : ℚ), 1, 2, 3, 4, 5, 6, 7, 8, 9] :=
  ⟨(claim_C5 [0, 1, 2, 3, 4, 5, 6, 7, 8, 9] [0, 1, 0, 1, 0, 1, 0, 1, 0, 1] 4
      rfl (by omega) (by decide)).1,
   (claim_C5 [0, 1, 2, 3, 4, 5, 6, 7, 8, 9] [0, 1, 0, 1, 0, 1, 0, 1, 0, 1] 4
      rfl (by omega) (by decide)).2.2⟩
